import Mathlib

/-!
Verification of the `myargs.h` command-line argument parser.

The C data model and operations are shallowly embedded here:
`char *` values that may be `NULL` become `Option String`, the growable
`Argument *` array becomes a `List Argument`, and `strdup` (an identity
on the abstract string value; `strdup(NULL)` is modelled as `none`)
disappears.  `parse_args` terminating the process via `exit(EXIT_FAILURE)`
after an `fprintf(stderr, ...)` is modelled by a `ParseResult` whose
`stderrLine` field is `some <diagnostic>`; the `printf` echo of bare
tokens is accumulated in the `stdoutText` field.  The token scan starts
at `argv[1]`, exactly as the C loop `for (int i = 1; i < argc; i++)`.
-/

set_option autoImplicit false

namespace MyArgs

/-- The C `enum Type { FLAG, KWARG, ARG }` (renamed: `Type` is reserved). -/
inductive ArgType where
  | FLAG
  | KWARG
  | ARG
deriving DecidableEq

/-- The C `struct Argument`.  The `value`/`values` union is modelled by its
`value` member only: the parsing and retrieval code never reads `values`. -/
structure Argument where
  name : String
  sym : Char
  required : Bool
  help : Option String
  type : ArgType
  /-- `count` is left uninitialized by `add_kwarg`/`add_flag` in the C code
  and is never read by parsing or the getters; we store `0` there. -/
  count : Nat
  def_val : Option String
  value : Option String
deriving DecidableEq

/-- The C `struct ArgumentParser`; its `count` field is `arguments.length`. -/
structure ArgumentParser where
  program : String
  usage : String
  epilog : String
  description : String
  arguments : List Argument
deriving DecidableEq

/-- The C idiom `sym ? sym : '0'` used by all three declaration functions:
an absent short symbol (character code 0) is stored as the literal `'0'`. -/
def storedSym (sym : Char) : Char :=
  if sym = Char.ofNat 0 then '0' else sym

/-- `add_arg`: append a positional (`ARG`) spec. -/
def add_arg (p : ArgumentParser) (sym : Char) (name : String) (required : Bool)
    (nargs : Nat) (default_value : Option String) (help : Option String) :
    ArgumentParser :=
  { p with arguments := p.arguments ++
      [{ name := name, sym := storedSym sym, required := required, help := help,
         type := ArgType.ARG, count := nargs, def_val := default_value,
         value := none }] }

/-- `add_kwarg`: append a key-value (`KWARG`) spec. -/
def add_kwarg (p : ArgumentParser) (sym : Char) (name : String) (required : Bool)
    (default_value : Option String) (help : Option String) : ArgumentParser :=
  { p with arguments := p.arguments ++
      [{ name := name, sym := storedSym sym, required := required, help := help,
         type := ArgType.KWARG, count := 0, def_val := default_value,
         value := none }] }

/-- `add_flag`: append a `FLAG` spec (never required, no default). -/
def add_flag (p : ArgumentParser) (sym : Char) (name : String)
    (help : Option String) : ArgumentParser :=
  { p with arguments := p.arguments ++
      [{ name := name, sym := storedSym sym, required := false, help := help,
         type := ArgType.FLAG, count := 0, def_val := none, value := none }] }

/-- `init_parser` (the name `init_parser` itself is not used here); `new_parser`
has the same body.  When `add_help` is set it registers the `-h`/`help` flag. -/
def initParser (program usage description epilog : String) (add_help : Bool) :
    ArgumentParser :=
  let p : ArgumentParser :=
    { program := program, usage := usage, epilog := epilog,
      description := description, arguments := [] }
  if add_help then add_flag p 'h' "help" (some "Shows this help Menu") else p

/-- The C split idiom `value = strchr(arg, '='); if (value) { *value = 0; value++; }`:
cut a character list at the first `'='`; the part after it (if any) is the value. -/
def splitEqList : List Char → List Char × Option (List Char)
  | [] => ([], none)
  | c :: cs =>
    if c = '=' then ([], some cs)
    else
      let r := splitEqList cs
      (c :: r.1, r.2)

/-- String version of `splitEqList`. -/
def splitEq (s : String) : String × Option String :=
  let r := splitEqList s.data
  (String.mk r.1, r.2.map String.mk)

/-- `strncmp(s, "--", 2) == 0`. -/
def startsDashDash (s : String) : Bool :=
  match s.data with
  | c1 :: c2 :: _ => c1 == '-' && c2 == '-'
  | _ => false

/-- `strncmp(s, "-", 1) == 0`. -/
def startsDash (s : String) : Bool :=
  match s.data with
  | c :: _ => c == '-'
  | [] => false

/-- Pointer arithmetic `s + n` on a C string. -/
def strDrop (s : String) (n : Nat) : String :=
  String.mk (s.data.drop n)

/-- First matching loop of the long-form and bare-token cases of `parse_args`:
assign `v` to the first spec whose name equals `n` (any type), then `break`. -/
def assignNamed (n : String) (v : Option String) : List Argument → List Argument
  | [] => []
  | a :: rest =>
    if a.name = n then { a with value := v } :: rest
    else a :: assignNamed n v rest

/-- Second matching loop of the long-form and bare-token cases: the first spec
whose name equals `n` and whose type is `FLAG` gets `"true"`, or `KWARG` gets
`v`; a name match of type `ARG` does not `break` and the scan continues. -/
def assignTyped (n : String) (v : Option String) : List Argument → List Argument
  | [] => []
  | a :: rest =>
    if a.name = n ∧ a.type = ArgType.FLAG then
      { a with value := some "true" } :: rest
    else if a.name = n ∧ a.type = ArgType.KWARG then
      { a with value := v } :: rest
    else a :: assignTyped n v rest

/-- Inner loop of the short-form case, for one cluster character `c`: the first
spec with short symbol `c` of type `FLAG` gets `"true"`, or of type `KWARG`
gets `v`; symbol matches of type `ARG` do not `break`. -/
def assignSym (c : Char) (v : Option String) : List Argument → List Argument
  | [] => []
  | a :: rest =>
    if a.sym = c ∧ a.type = ArgType.FLAG then
      { a with value := some "true" } :: rest
    else if a.sym = c ∧ a.type = ArgType.KWARG then
      { a with value := v } :: rest
    else a :: assignSym c v rest

/-- Outer loop of the short-form case: run `assignSym` for every character of
the symbol cluster, left to right. -/
def assignSyms (cs : List Char) (v : Option String) (l : List Argument) :
    List Argument :=
  cs.foldl (fun acc c => assignSym c v acc) l

/-- One iteration of the token loop of `parse_args`.  Returns the updated spec
list and the text this iteration writes to standard output (the bare-token
case prints the part of the token before the first `'='`). -/
def scanToken (args : List Argument) (tok : String) : List Argument × String :=
  if startsDashDash tok then
    let r := splitEq (strDrop tok 2)
    (assignTyped r.1 r.2 (assignNamed r.1 r.2 args), "")
  else if startsDash tok then
    let r := splitEq (strDrop tok 1)
    (assignSyms r.1.data r.2 args, "")
  else
    let r := splitEq tok
    (assignTyped r.1 r.2 (assignNamed r.1 r.2 args), r.1)

/-- Fold step accumulating the spec list and the standard-output text. -/
def scanStep (acc : List Argument × String) (tok : String) :
    List Argument × String :=
  let r := scanToken acc.1 tok
  (r.1, acc.2 ++ r.2)

/-- The whole token loop of `parse_args`: `argv[0]` is skipped. -/
def scanArgs (args : List Argument) (argv : List String) :
    List Argument × String :=
  (argv.drop 1).foldl scanStep (args, "")

/-- Post-scan loop of `parse_args`: report the first required-but-missing spec
(second component `some <stderr line>` models `fprintf(stderr, ...)` followed
by `exit(EXIT_FAILURE)`; specs from that point on are left untouched),
otherwise substitute defaults for unresolved specs. -/
def validate : List Argument → List Argument × Option String
  | [] => ([], none)
  | a :: rest =>
    if a.required = true ∧ a.value = none then
      (a :: rest, some ("Missing required argument: " ++ a.name ++ "\n"))
    else
      ((if a.value = none then { a with value := a.def_val } else a)
          :: (validate rest).1,
        (validate rest).2)

/-- Observable outcome of `parse_args`: the mutated spec list, the text written
to standard output, and (when the process exits with failure status) the one
diagnostic line written to standard error. -/
structure ParseResult where
  args : List Argument
  stdoutText : String
  stderrLine : Option String
deriving DecidableEq

/-- `parse_args(parser, argc, argv)`. -/
def parse_args (p : ArgumentParser) (argv : List String) : ParseResult :=
  let s := scanArgs p.arguments argv
  let v := validate s.1
  { args := v.1, stdoutText := s.2, stderrLine := v.2 }

/-- The in-place mutation of the parser performed by `parse_args`. -/
def afterParse (p : ArgumentParser) (argv : List String) : ArgumentParser :=
  { p with arguments := (parse_args p argv).args }

/-- The shared linear name scan of the three getters (`strcmp == 0`, first
match returns). -/
def findNamed (n : String) : List Argument → Option Argument
  | [] => none
  | a :: rest => if a.name = n then some a else findNamed n rest

/-- `get_arg`: value of a positional argument, falling back to its default;
`NULL` on a kind mismatch or an unknown name. -/
def get_arg (p : ArgumentParser) (n : String) : Option String :=
  match findNamed n p.arguments with
  | none => none
  | some a =>
    if a.type = ArgType.ARG then
      match a.value with
      | some v => some v
      | none => a.def_val
    else none

/-- `get_kwarg`: value of a key-value argument, falling back to its default;
`NULL` on a kind mismatch or an unknown name. -/
def get_kwarg (p : ArgumentParser) (n : String) : Option String :=
  match findNamed n p.arguments with
  | none => none
  | some a =>
    if a.type = ArgType.KWARG then
      match a.value with
      | some v => some v
      | none => a.def_val
    else none

/-- `get_flag`: `1` iff the named spec is a `FLAG` with a non-`NULL` value. -/
def get_flag (p : ArgumentParser) (n : String) : Bool :=
  match findNamed n p.arguments with
  | none => false
  | some a =>
    if a.type = ArgType.FLAG then a.value.isSome else false

/-! ### Verification infrastructure -/

/-- The fields of a spec that the matching loops read; the token scan can
change a spec's `value` but never its shape. -/
def sameShape (b c : Argument) : Prop :=
  c.name = b.name ∧ c.sym = b.sym ∧ c.type = b.type ∧
  c.required = b.required ∧ c.def_val = b.def_val

/-- No spec declared before `a` can steal one of `a`'s matches: earlier names
differ, and an earlier spec with `a`'s short symbol can only be a positional
(`ARG`), which the short-form matching loop skips without breaking. -/
def Unshadowed (pre : List Argument) (a : Argument) : Prop :=
  ∀ b ∈ pre, b.name ≠ a.name ∧ (b.sym ≠ a.sym ∨ b.type = ArgType.ARG)

/-- Common skeleton of the three matching loops: update the first element
satisfying `P` with `f` and stop. -/
def updateFirst (P : Argument → Prop) [DecidablePred P]
    (f : Argument → Argument) : List Argument → List Argument
  | [] => []
  | a :: rest => if P a then f a :: rest else a :: updateFirst P f rest

theorem assignNamed_eq (n : String) (v : Option String) (l : List Argument) :
    assignNamed n v l =
      updateFirst (fun b => b.name = n) (fun b => { b with value := v }) l := by
  induction l with
  | nil => rfl
  | cons a rest ih => by_cases h : a.name = n <;> simp [assignNamed, updateFirst, h, ih]

theorem assignTyped_eq (n : String) (v : Option String) (l : List Argument) :
    assignTyped n v l =
      updateFirst
        (fun b => b.name = n ∧ (b.type = ArgType.FLAG ∨ b.type = ArgType.KWARG))
        (fun b =>
          if b.type = ArgType.FLAG then { b with value := some "true" }
          else { b with value := v }) l := by
  induction l with
  | nil => rfl
  | cons a rest ih =>
    by_cases h : a.name = n <;> cases ht : a.type <;>
      simp [assignTyped, updateFirst, h, ht, ih]

theorem assignSym_eq (c : Char) (v : Option String) (l : List Argument) :
    assignSym c v l =
      updateFirst
        (fun b => b.sym = c ∧ (b.type = ArgType.FLAG ∨ b.type = ArgType.KWARG))
        (fun b =>
          if b.type = ArgType.FLAG then { b with value := some "true" }
          else { b with value := v }) l := by
  induction l with
  | nil => rfl
  | cons a rest ih =>
    by_cases h : a.sym = c <;> cases ht : a.type <;>
      simp [assignSym, updateFirst, h, ht, ih]

theorem updateFirst_of_none (P : Argument → Prop) [DecidablePred P]
    (f : Argument → Argument) (l : List Argument) (h : ∀ b ∈ l, ¬ P b) :
    updateFirst P f l = l := by
  induction l with
  | nil => rfl
  | cons a rest ih =>
    rw [updateFirst, if_neg (h a (List.mem_cons_self a rest))]
    rw [ih fun b hb => h b (List.mem_cons_of_mem a hb)]

theorem updateFirst_found (P : Argument → Prop) [DecidablePred P]
    (f : Argument → Argument) (pre : List Argument) (a : Argument)
    (post : List Argument) (hpre : ∀ b ∈ pre, ¬ P b) (ha : P a) :
    updateFirst P f (pre ++ a :: post) = pre ++ f a :: post := by
  induction pre with
  | nil => simp only [List.nil_append, updateFirst, if_pos ha]
  | cons b pr ih =>
    rw [List.cons_append, updateFirst, if_neg (hpre b (List.mem_cons_self b pr)),
      ih fun x hx => hpre x (List.mem_cons_of_mem b hx), List.cons_append]

theorem updateFirst_pass (P : Argument → Prop) [DecidablePred P]
    (f : Argument → Argument) (pre : List Argument) (a : Argument)
    (post : List Argument) (hpre : ∀ b ∈ pre, ¬ P b) (ha : ¬ P a) :
    updateFirst P f (pre ++ a :: post) = pre ++ a :: updateFirst P f post := by
  induction pre with
  | nil => simp [updateFirst, if_neg ha]
  | cons b pr ih =>
    rw [List.cons_append, updateFirst, if_neg (hpre b (List.mem_cons_self b pr)),
      ih fun x hx => hpre x (List.mem_cons_of_mem b hx), List.cons_append]

theorem updateFirst_forall₂ (P : Argument → Prop) [DecidablePred P]
    (f : Argument → Argument) (l : List Argument) :
    List.Forall₂ (fun b c => c = b ∨ c = f b) l (updateFirst P f l) := by
  induction l with
  | nil => exact List.Forall₂.nil
  | cons a rest ih =>
    rw [updateFirst]
    split
    · exact List.Forall₂.cons (Or.inr rfl)
        (List.forall₂_same.2 fun x _ => Or.inl rfl)
    · exact List.Forall₂.cons (Or.inl rfl) ih

theorem updateFirst_untouched (P : Argument → Prop) [DecidablePred P]
    (f : Argument → Argument) (pre : List Argument) (a : Argument)
    (post : List Argument) (ha : ¬ P a) :
    ∃ pre2 post2, updateFirst P f (pre ++ a :: post) = pre2 ++ a :: post2 ∧
      List.Forall₂ (fun b c => c = b ∨ c = f b) pre pre2 ∧
      List.Forall₂ (fun b c => c = b ∨ c = f b) post post2 := by
  induction pre with
  | nil =>
    exact ⟨[], updateFirst P f post, by simp [updateFirst, if_neg ha],
      List.Forall₂.nil, updateFirst_forall₂ P f post⟩
  | cons b pr ih =>
    rw [List.cons_append, updateFirst]
    by_cases hb : P b
    · exact ⟨f b :: pr, post, by simp [if_pos hb],
        List.Forall₂.cons (Or.inr rfl) (List.forall₂_same.2 fun x _ => Or.inl rfl),
        List.forall₂_same.2 fun x _ => Or.inl rfl⟩
    · obtain ⟨pre2, post2, heq, h1, h2⟩ := ih
      exact ⟨b :: pre2, post2, by rw [if_neg hb, heq, List.cons_append],
        List.Forall₂.cons (Or.inl rfl) h1, h2⟩

theorem sameShape_refl (a : Argument) : sameShape a a :=
  ⟨rfl, rfl, rfl, rfl, rfl⟩

theorem sameShape_setValue (a : Argument) (v : Option String) :
    sameShape a { a with value := v } :=
  ⟨rfl, rfl, rfl, rfl, rfl⟩

theorem sameShape_trans {a b c : Argument} (h1 : sameShape a b)
    (h2 : sameShape b c) : sameShape a c := by
  obtain ⟨n1, s1, t1, r1, d1⟩ := h1
  obtain ⟨n2, s2, t2, r2, d2⟩ := h2
  exact ⟨n2.trans n1, s2.trans s1, t2.trans t1, r2.trans r1, d2.trans d1⟩

theorem forall₂_shape_trans {l1 l2 l3 : List Argument}
    (h1 : List.Forall₂ sameShape l1 l2) (h2 : List.Forall₂ sameShape l2 l3) :
    List.Forall₂ sameShape l1 l3 := by
  induction h1 generalizing l3 with
  | nil => cases h2; exact List.Forall₂.nil
  | cons hab h ih =>
    cases h2 with
    | cons hbc h2tl => exact List.Forall₂.cons (sameShape_trans hab hbc) (ih h2tl)

theorem forall₂_mem_right {R : Argument → Argument → Prop}
    {l1 l2 : List Argument} (h : List.Forall₂ R l1 l2) :
    ∀ c ∈ l2, ∃ b ∈ l1, R b c := by
  induction h with
  | nil => intro c hc; cases hc
  | cons hab h ih =>
    intro c hc
    rcases List.mem_cons.1 hc with rfl | hc
    · exact ⟨_, List.mem_cons_self _ _, hab⟩
    · obtain ⟨b, hb, hr⟩ := ih c hc
      exact ⟨b, List.mem_cons_of_mem _ hb, hr⟩

theorem forall₂_shape_of_setValue {f : Argument → Argument}
    (hf : ∀ b, sameShape b (f b)) {l1 l2 : List Argument}
    (h : List.Forall₂ (fun b c => c = b ∨ c = f b) l1 l2) :
    List.Forall₂ sameShape l1 l2 := by
  apply h.imp
  intro b c hc
  rcases hc with h1 | h1
  · rw [h1]; exact sameShape_refl b
  · rw [h1]; exact hf b

theorem unshadowed_transfer {pre pre2 : List Argument} {a a2 : Argument}
    (hpre : List.Forall₂ sameShape pre pre2) (ha : sameShape a a2)
    (h : Unshadowed pre a) : Unshadowed pre2 a2 := by
  intro b2 hb2
  obtain ⟨b, hb, hbs⟩ := forall₂_mem_right hpre b2 hb2
  obtain ⟨hn, hs⟩ := h b hb
  refine ⟨by rw [hbs.1, ha.1]; exact hn, ?_⟩
  rcases hs with hs | hs
  · exact Or.inl (by rw [hbs.2.1, ha.2.1]; exact hs)
  · exact Or.inr (by rw [hbs.2.2.1]; exact hs)

/-- The value a matched spec receives: flags always get the literal `"true"`,
key-value and positional specs get the (possibly absent) text after `=`. -/
def longVal (a : Argument) (v : Option String) : Option String :=
  if a.type = ArgType.FLAG then some "true" else v

/-- The effect of one token of the scan loop on a spec `a` that no earlier
spec shadows: `some w` when the token matches `a` and leaves value `w` in it,
`none` when the token leaves `a` alone.  Long-form and bare tokens match by
name (a positional is still assigned by the first, untyped, matching loop);
short-form tokens match by symbol, for every character of the cluster, and
skip positionals. -/
def tokenEffect (a : Argument) (tok : String) : Option (Option String) :=
  if startsDashDash tok then
    let r := splitEq (strDrop tok 2)
    if r.1 = a.name then some (longVal a r.2) else none
  else if startsDash tok then
    let r := splitEq (strDrop tok 1)
    if a.sym ∈ r.1.data ∧ a.type ≠ ArgType.ARG then some (longVal a r.2)
    else none
  else
    let r := splitEq tok
    if r.1 = a.name then some (longVal a r.2) else none

/-- Value of spec `a` after the short-form cluster `cs` has been scanned. -/
def symsValue (a : Argument) (cs : List Char) (v : Option String) :
    Option String :=
  cs.foldl
    (fun w c => if a.sym = c ∧ a.type ≠ ArgType.ARG then longVal a v else w)
    a.value

theorem assignSym_decomp (c : Char) (v : Option String) (pre : List Argument)
    (a : Argument) (post : List Argument) (h : Unshadowed pre a) :
    ∃ pre2 post2,
      assignSym c v (pre ++ a :: post) =
        pre2 ++ { a with value :=
          if a.sym = c ∧ a.type ≠ ArgType.ARG then longVal a v
          else a.value } :: post2 ∧
      List.Forall₂ sameShape pre pre2 ∧ List.Forall₂ sameShape post post2 := by
  by_cases hc : a.sym = c
  · cases ht : a.type with
    | ARG =>
      have hna : ¬ (a.sym = c ∧ (a.type = ArgType.FLAG ∨ a.type = ArgType.KWARG)) := by
        rintro ⟨-, ho⟩
        rcases ho with h1 | h1 <;> rw [ht] at h1 <;> cases h1
      obtain ⟨pre2, post2, heq, h1, h2⟩ :=
        updateFirst_untouched
          (fun b => b.sym = c ∧ (b.type = ArgType.FLAG ∨ b.type = ArgType.KWARG))
          (fun b =>
            if b.type = ArgType.FLAG then { b with value := some "true" }
            else { b with value := v }) pre a post hna
      refine ⟨pre2, post2, ?_, forall₂_shape_of_setValue ?_ h1,
        forall₂_shape_of_setValue ?_ h2⟩
      · rw [assignSym_eq, heq, if_neg (by simp), ← ht]
      all_goals intro b; split <;> exact sameShape_setValue b _
    | FLAG =>
      have hpre : ∀ b ∈ pre,
          ¬ (b.sym = c ∧ (b.type = ArgType.FLAG ∨ b.type = ArgType.KWARG)) := by
        intro b hb
        obtain ⟨-, hs⟩ := h b hb
        rintro ⟨hbs, ho⟩
        rcases hs with hs | hs
        · exact hs (hbs.trans hc.symm)
        · rcases ho with h1 | h1 <;> rw [hs] at h1 <;> cases h1
      refine ⟨pre, post, ?_, List.forall₂_same.2 fun x _ => sameShape_refl x,
        List.forall₂_same.2 fun x _ => sameShape_refl x⟩
      rw [assignSym_eq, updateFirst_found _ _ pre a post hpre ⟨hc, Or.inl ht⟩]
      simp [ht, hc, longVal]
    | KWARG =>
      have hpre : ∀ b ∈ pre,
          ¬ (b.sym = c ∧ (b.type = ArgType.FLAG ∨ b.type = ArgType.KWARG)) := by
        intro b hb
        obtain ⟨-, hs⟩ := h b hb
        rintro ⟨hbs, ho⟩
        rcases hs with hs | hs
        · exact hs (hbs.trans hc.symm)
        · rcases ho with h1 | h1 <;> rw [hs] at h1 <;> cases h1
      refine ⟨pre, post, ?_, List.forall₂_same.2 fun x _ => sameShape_refl x,
        List.forall₂_same.2 fun x _ => sameShape_refl x⟩
      rw [assignSym_eq, updateFirst_found _ _ pre a post hpre ⟨hc, Or.inr ht⟩]
      simp [ht, hc, longVal]
  · have hna : ¬ (a.sym = c ∧ (a.type = ArgType.FLAG ∨ a.type = ArgType.KWARG)) :=
      fun hx => hc hx.1
    obtain ⟨pre2, post2, heq, h1, h2⟩ :=
      updateFirst_untouched
        (fun b => b.sym = c ∧ (b.type = ArgType.FLAG ∨ b.type = ArgType.KWARG))
        (fun b =>
          if b.type = ArgType.FLAG then { b with value := some "true" }
          else { b with value := v }) pre a post hna
    refine ⟨pre2, post2, ?_, forall₂_shape_of_setValue ?_ h1,
      forall₂_shape_of_setValue ?_ h2⟩
    · rw [assignSym_eq, heq]
      simp [hc]
    all_goals intro b; split <;> exact sameShape_setValue b _

theorem assignSyms_decomp (cs : List Char) (v : Option String)
    (pre : List Argument) (a : Argument) (post : List Argument)
    (h : Unshadowed pre a) :
    ∃ pre2 post2,
      assignSyms cs v (pre ++ a :: post) =
        pre2 ++ { a with value := symsValue a cs v } :: post2 ∧
      List.Forall₂ sameShape pre pre2 ∧ List.Forall₂ sameShape post post2 := by
  induction cs generalizing pre a post with
  | nil =>
    exact ⟨pre, post, rfl, List.forall₂_same.2 fun x _ => sameShape_refl x,
      List.forall₂_same.2 fun x _ => sameShape_refl x⟩
  | cons c cs ih =>
    obtain ⟨pre1, post1, heq1, hp1, hq1⟩ := assignSym_decomp c v pre a post h
    have h1 : Unshadowed pre1
        ({ a with value :=
          if a.sym = c ∧ a.type ≠ ArgType.ARG then longVal a v
          else a.value }) :=
      unshadowed_transfer hp1 (sameShape_setValue a _) h
    obtain ⟨pre2, post2, heq2, hp2, hq2⟩ := ih pre1 _ post1 h1
    refine ⟨pre2, post2, ?_, forall₂_shape_trans hp1 hp2,
      forall₂_shape_trans hq1 hq2⟩
    show assignSyms cs v (assignSym c v (pre ++ a :: post)) = _
    rw [heq1, heq2]
    rfl

theorem foldl_ite_const {γ : Type} (p : γ → Prop) [DecidablePred p]
    {β : Type} (k : β) (cs : List γ) :
    cs.foldl (fun w c => if p c then k else w) k = k := by
  induction cs with
  | nil => rfl
  | cons c cs ih => simpa [ite_self] using ih

theorem symsValue_eq (a : Argument) (cs : List Char) (v : Option String) :
    symsValue a cs v =
      if a.sym ∈ cs ∧ a.type ≠ ArgType.ARG then longVal a v else a.value := by
  by_cases ht : a.type = ArgType.ARG
  · have key : ∀ (cs2 : List Char) (w : Option String),
        cs2.foldl (fun w c => if a.sym = c ∧ a.type ≠ ArgType.ARG
          then longVal a v else w) w = w := by
      intro cs2
      induction cs2 with
      | nil => intro w; rfl
      | cons c cs2 ih =>
        intro w
        rw [List.foldl_cons, if_neg (by simp [ht])]
        exact ih w
    rw [symsValue, key, if_neg (by simp [ht])]
  · induction cs with
    | nil => simp [symsValue]
    | cons c cs ih =>
      by_cases hc : a.sym = c
      · have h1 : symsValue a (c :: cs) v =
            cs.foldl (fun w c => if a.sym = c ∧ a.type ≠ ArgType.ARG
              then longVal a v else w) (longVal a v) := by
          rw [symsValue, List.foldl_cons, if_pos ⟨hc, ht⟩]
        rw [h1, foldl_ite_const, if_pos ⟨List.mem_cons.2 (Or.inl hc), ht⟩]
      · have h1 : symsValue a (c :: cs) v = symsValue a cs v := by
          rw [symsValue, List.foldl_cons, if_neg (fun hx => hc hx.1)]
          rfl
        have hnm : ¬ (a.sym ∈ c :: cs ∧ a.type ≠ ArgType.ARG) →
            ¬ (a.sym ∈ cs ∧ a.type ≠ ArgType.ARG) :=
          fun hx ⟨hm, h2⟩ => hx ⟨List.mem_cons.2 (Or.inr hm), h2⟩
        rw [h1, ih]
        by_cases hm : a.sym ∈ cs
        · rw [if_pos ⟨hm, ht⟩, if_pos ⟨List.mem_cons.2 (Or.inr hm), ht⟩]
        · have hn2 : ¬ (a.sym ∈ c :: cs ∧ a.type ≠ ArgType.ARG) := by
            rintro ⟨hx, -⟩
            rcases List.mem_cons.1 hx with h2 | h2
            · exact hc h2
            · exact hm h2
          rw [if_neg (fun hx => hm hx.1), if_neg hn2]

theorem ite_some_none_getD {β : Type} (c : Prop) [Decidable c] (x : β) (y : β) :
    (if c then some x else none).getD y = if c then x else y := by
  by_cases h : c <;> simp [h]

theorem assignPair_decomp (n : String) (v : Option String)
    (pre : List Argument) (a : Argument) (post : List Argument)
    (hpre : ∀ b ∈ pre, b.name ≠ a.name) :
    ∃ pre2 post2,
      assignTyped n v (assignNamed n v (pre ++ a :: post)) =
        pre2 ++ { a with value :=
          if n = a.name then longVal a v else a.value } :: post2 ∧
      List.Forall₂ sameShape pre pre2 ∧ List.Forall₂ sameShape post post2 := by
  by_cases hn : n = a.name
  · have hpre1 : ∀ b ∈ pre, ¬ (b.name = n) :=
      fun b hb h1 => hpre b hb (h1.trans hn)
    have hpre2 : ∀ b ∈ pre,
        ¬ (b.name = n ∧ (b.type = ArgType.FLAG ∨ b.type = ArgType.KWARG)) :=
      fun b hb hx => hpre b hb (hx.1.trans hn)
    have h1 : assignNamed n v (pre ++ a :: post) =
        pre ++ { a with value := v } :: post := by
      rw [assignNamed_eq,
        updateFirst_found (fun b => b.name = n)
          (fun b => { b with value := v }) pre a post hpre1 hn.symm]
    cases ht : a.type with
    | FLAG =>
      refine ⟨pre, post, ?_, List.forall₂_same.2 fun x _ => sameShape_refl x,
        List.forall₂_same.2 fun x _ => sameShape_refl x⟩
      rw [h1, assignTyped_eq,
        updateFirst_found
          (fun b => b.name = n ∧ (b.type = ArgType.FLAG ∨ b.type = ArgType.KWARG))
          (fun b =>
            if b.type = ArgType.FLAG then { b with value := some "true" }
            else { b with value := v })
          pre ({ a with value := v }) post hpre2 ⟨hn.symm, Or.inl ht⟩]
      simp [hn, ht, longVal]
    | KWARG =>
      refine ⟨pre, post, ?_, List.forall₂_same.2 fun x _ => sameShape_refl x,
        List.forall₂_same.2 fun x _ => sameShape_refl x⟩
      rw [h1, assignTyped_eq,
        updateFirst_found
          (fun b => b.name = n ∧ (b.type = ArgType.FLAG ∨ b.type = ArgType.KWARG))
          (fun b =>
            if b.type = ArgType.FLAG then { b with value := some "true" }
            else { b with value := v })
          pre ({ a with value := v }) post hpre2 ⟨hn.symm, Or.inr ht⟩]
      simp [hn, ht, longVal]
    | ARG =>
      have hshape : List.Forall₂ sameShape post (assignTyped n v post) := by
        rw [assignTyped_eq]
        refine forall₂_shape_of_setValue ?_ (updateFirst_forall₂ _ _ post)
        intro b; split <;> exact sameShape_setValue b _
      refine ⟨pre, assignTyped n v post, ?_,
        List.forall₂_same.2 fun x _ => sameShape_refl x, hshape⟩
      rw [h1, assignTyped_eq,
        updateFirst_pass
          (fun b => b.name = n ∧ (b.type = ArgType.FLAG ∨ b.type = ArgType.KWARG))
          (fun b =>
            if b.type = ArgType.FLAG then { b with value := some "true" }
            else { b with value := v })
          pre ({ a with value := v }) post hpre2 ?_]
      · rw [← assignTyped_eq]
        simp [hn, ht, longVal]
      · rintro ⟨-, ho⟩
        rcases ho with h2 | h2 <;>
          simp only [ht] at h2 <;> cases h2
  · have hna1 : ¬ (a.name = n) := fun h1 => hn h1.symm
    obtain ⟨pre1, post1, heq1, h11, h12⟩ :=
      updateFirst_untouched (fun b => b.name = n)
        (fun b => { b with value := v }) pre a post hna1
    obtain ⟨pre2, post2, heq2, h21, h22⟩ :=
      updateFirst_untouched
        (fun b => b.name = n ∧ (b.type = ArgType.FLAG ∨ b.type = ArgType.KWARG))
        (fun b =>
          if b.type = ArgType.FLAG then { b with value := some "true" }
          else { b with value := v })
        pre1 a post1 (fun hx => hn hx.1.symm)
    have hs11 : List.Forall₂ sameShape pre pre1 :=
      forall₂_shape_of_setValue (fun b => sameShape_setValue b v) h11
    have hs12 : List.Forall₂ sameShape post post1 :=
      forall₂_shape_of_setValue (fun b => sameShape_setValue b v) h12
    have hs21 : List.Forall₂ sameShape pre1 pre2 := by
      refine forall₂_shape_of_setValue ?_ h21
      intro b; split <;> exact sameShape_setValue b _
    have hs22 : List.Forall₂ sameShape post1 post2 := by
      refine forall₂_shape_of_setValue ?_ h22
      intro b; split <;> exact sameShape_setValue b _
    refine ⟨pre2, post2, ?_, forall₂_shape_trans hs11 hs21,
      forall₂_shape_trans hs12 hs22⟩
    rw [assignNamed_eq, heq1, assignTyped_eq, heq2, if_neg hn]

theorem scanToken_decomp (tok : String) (pre : List Argument) (a : Argument)
    (post : List Argument) (h : Unshadowed pre a) :
    ∃ pre2 post2,
      (scanToken (pre ++ a :: post) tok).1 =
        pre2 ++ { a with value := (tokenEffect a tok).getD a.value } :: post2 ∧
      List.Forall₂ sameShape pre pre2 ∧ List.Forall₂ sameShape post post2 := by
  have hnames : ∀ b ∈ pre, b.name ≠ a.name := fun b hb => (h b hb).1
  by_cases h2 : startsDashDash tok
  · obtain ⟨pre2, post2, heq, hp, hq⟩ :=
      assignPair_decomp (splitEq (strDrop tok 2)).1 (splitEq (strDrop tok 2)).2
        pre a post hnames
    refine ⟨pre2, post2, ?_, hp, hq⟩
    have hs : (scanToken (pre ++ a :: post) tok).1 =
        assignTyped (splitEq (strDrop tok 2)).1 (splitEq (strDrop tok 2)).2
          (assignNamed (splitEq (strDrop tok 2)).1 (splitEq (strDrop tok 2)).2
            (pre ++ a :: post)) := by
      simp [scanToken, h2]
    have he : tokenEffect a tok =
        (if (splitEq (strDrop tok 2)).1 = a.name
          then some (longVal a (splitEq (strDrop tok 2)).2) else none) := by
      simp [tokenEffect, h2]
    rw [hs, heq, he, ite_some_none_getD]
  · by_cases h3 : startsDash tok
    · obtain ⟨pre2, post2, heq, hp, hq⟩ :=
        assignSyms_decomp (splitEq (strDrop tok 1)).1.data
          (splitEq (strDrop tok 1)).2 pre a post h
      refine ⟨pre2, post2, ?_, hp, hq⟩
      have hs : (scanToken (pre ++ a :: post) tok).1 =
          assignSyms (splitEq (strDrop tok 1)).1.data
            (splitEq (strDrop tok 1)).2 (pre ++ a :: post) := by
        simp [scanToken, h2, h3]
      have he : tokenEffect a tok =
          (if a.sym ∈ (splitEq (strDrop tok 1)).1.data ∧ a.type ≠ ArgType.ARG
            then some (longVal a (splitEq (strDrop tok 1)).2) else none) := by
        simp [tokenEffect, h2, h3]
      rw [hs, heq, symsValue_eq, he, ite_some_none_getD]
    · obtain ⟨pre2, post2, heq, hp, hq⟩ :=
        assignPair_decomp (splitEq tok).1 (splitEq tok).2 pre a post hnames
      refine ⟨pre2, post2, ?_, hp, hq⟩
      have hs : (scanToken (pre ++ a :: post) tok).1 =
          assignTyped (splitEq tok).1 (splitEq tok).2
            (assignNamed (splitEq tok).1 (splitEq tok).2 (pre ++ a :: post)) := by
        simp [scanToken, h2, h3]
      have he : tokenEffect a tok =
          (if (splitEq tok).1 = a.name
            then some (longVal a (splitEq tok).2) else none) := by
        simp [tokenEffect, h2, h3]
      rw [hs, heq, he, ite_some_none_getD]

/-- The spec-list component of the token loop. -/
def scanList (l : List Argument) (toks : List String) : List Argument :=
  toks.foldl (fun acc t => (scanToken acc t).1) l

theorem scanFold_fst (toks : List String) : ∀ (l : List Argument) (out : String),
    (toks.foldl scanStep (l, out)).1 = scanList l toks := by
  induction toks with
  | nil => intro l out; rfl
  | cons t ts ih =>
    intro l out
    exact ih (scanToken l t).1 (out ++ (scanToken l t).2)

/-- Value of spec `a` after a whole token list has been scanned: the effect of
the last matching token, or the initial value when no token matches. -/
def scannedValue (a : Argument) (toks : List String) : Option String :=
  toks.foldl (fun w t => (tokenEffect a t).getD w) a.value

theorem scanList_decomp (toks : List String) (pre : List Argument)
    (a : Argument) (post : List Argument) (h : Unshadowed pre a) :
    ∃ pre2 post2,
      scanList (pre ++ a :: post) toks =
        pre2 ++ { a with value := scannedValue a toks } :: post2 ∧
      List.Forall₂ sameShape pre pre2 ∧ List.Forall₂ sameShape post post2 := by
  induction toks generalizing pre a post with
  | nil =>
    exact ⟨pre, post, rfl, List.forall₂_same.2 fun x _ => sameShape_refl x,
      List.forall₂_same.2 fun x _ => sameShape_refl x⟩
  | cons t ts ih =>
    obtain ⟨pre1, post1, heq1, hp1, hq1⟩ := scanToken_decomp t pre a post h
    obtain ⟨pre2, post2, heq2, hp2, hq2⟩ :=
      ih pre1 _ post1 (unshadowed_transfer hp1 (sameShape_setValue a _) h)
    refine ⟨pre2, post2, ?_, forall₂_shape_trans hp1 hp2,
      forall₂_shape_trans hq1 hq2⟩
    show scanList ((scanToken (pre ++ a :: post) t).1) ts = _
    rw [heq1, heq2]
    rfl

/-- Default substitution performed by the post-scan loop on a spec that is not
required-and-missing. -/
def substDefault (a : Argument) : Argument :=
  if a.value = none then { a with value := a.def_val } else a

/-- Boolean form of "required but unresolved". -/
def missingB (a : Argument) : Bool :=
  a.required && a.value.isNone

theorem missingB_iff (a : Argument) :
    missingB a = true ↔ (a.required = true ∧ a.value = none) := by
  simp [missingB, Option.isNone_iff_eq_none]

theorem validate_no_error (l : List Argument) (h : (validate l).2 = none) :
    (validate l).1 = l.map substDefault := by
  induction l with
  | nil => rfl
  | cons a rest ih =>
    by_cases hm : a.required = true ∧ a.value = none
    · rw [validate, if_pos hm] at h
      cases h
    · have h2 : (validate rest).2 = none := by
        rw [validate, if_neg hm] at h
        exact h
      rw [validate, if_neg hm]
      show (if a.value = none then { a with value := a.def_val } else a)
          :: (validate rest).1 = _
      rw [ih h2, List.map_cons]
      rfl

theorem validate_missing (l : List Argument) (a : Argument)
    (h : l.find? missingB = some a) :
    (validate l).2 = some ("Missing required argument: " ++ a.name ++ "\n") ∧
    (validate l).1 =
      (l.takeWhile (fun x => !missingB x)).map substDefault ++
        l.dropWhile (fun x => !missingB x) := by
  induction l with
  | nil => cases h
  | cons b rest ih =>
    by_cases hb : missingB b = true
    · rw [List.find?_cons_of_pos rest hb] at h
      injection h with h
      subst h
      constructor
      · rw [validate, if_pos ((missingB_iff b).1 hb)]
      · rw [validate, if_pos ((missingB_iff b).1 hb),
          List.takeWhile_cons, List.dropWhile_cons]
        simp [hb]
    · rw [List.find?_cons_of_neg rest hb] at h
      obtain ⟨ih1, ih2⟩ := ih h
      have hnm : ¬ (b.required = true ∧ b.value = none) :=
        fun hx => hb ((missingB_iff b).2 hx)
      constructor
      · rw [validate, if_neg hnm]
        exact ih1
      · rw [validate, if_neg hnm, List.takeWhile_cons, List.dropWhile_cons]
        simp only [hb, Bool.not_false, if_true, List.map_cons, List.cons_append]
        rw [ih2]
        rfl

theorem validate_error_of_missing (l : List Argument)
    (h : ∃ x ∈ l, x.required = true ∧ x.value = none) :
    ∃ a, l.find? missingB = some a := by
  obtain ⟨x, hx, hm⟩ := h
  have : (l.find? missingB).isSome = true :=
    List.find?_isSome.2 ⟨x, hx, (missingB_iff x).2 hm⟩
  exact Option.isSome_iff_exists.1 this

/-- Per-token standard-output contribution of the scan loop: only tokens with
no leading `-` print, and they print the part before the first `'='`. -/
def echoOf (tok : String) : String :=
  if startsDashDash tok then ""
  else if startsDash tok then ""
  else (splitEq tok).1

/-- Concatenation of the per-token output fragments. -/
def strConcat : List String → String
  | [] => ""
  | s :: rest => s ++ strConcat rest

theorem scanToken_snd (l : List Argument) (tok : String) :
    (scanToken l tok).2 = echoOf tok := by
  by_cases h2 : startsDashDash tok <;> by_cases h3 : startsDash tok <;>
    simp [scanToken, echoOf, h2, h3]

theorem scanFold_snd (toks : List String) : ∀ (l : List Argument) (out : String),
    (toks.foldl scanStep (l, out)).2 = out ++ strConcat (toks.map echoOf) := by
  induction toks with
  | nil => intro l out; simp [strConcat]
  | cons t ts ih =>
    intro l out
    show (ts.foldl scanStep (scanStep (l, out) t)).2 = _
    rw [show scanStep (l, out) t = ((scanToken l t).1, out ++ (scanToken l t).2)
        from rfl, ih, scanToken_snd, List.map_cons, strConcat,
      String.append_assoc]

theorem foldl_getD_const {σ β : Type} (g : σ → Option β) (w0 : β)
    (hc : ∀ t, g t = none ∨ g t = some w0) (l : List σ) :
    ∀ init : β, l.foldl (fun w t => (g t).getD w) init =
      if l.any (fun t => (g t).isSome) then w0 else init := by
  induction l with
  | nil => intro init; simp
  | cons t ts ih =>
    intro init
    rcases hc t with h1 | h1
    · rw [List.foldl_cons, List.any_cons, h1]
      simpa using ih init
    · rw [List.foldl_cons, List.any_cons, h1]
      simp only [Option.getD_some, Option.isSome_some, Bool.true_or, if_true]
      rw [ih w0]
      simp [ite_self]

theorem foldl_getD_none {σ β : Type} (g : σ → Option β) (l : List σ)
    (hc : ∀ t ∈ l, g t = none) : ∀ init : β,
    l.foldl (fun w t => (g t).getD w) init = init := by
  induction l with
  | nil => intro init; rfl
  | cons t ts ih =>
    intro init
    rw [List.foldl_cons, hc t (List.mem_cons_self t ts)]
    exact ih (fun x hx => hc x (List.mem_cons_of_mem t hx)) init

theorem foldl_getD_eq_getLastD {σ β : Type} (g : σ → Option β) (l : List σ) :
    ∀ init : β, l.foldl (fun w t => (g t).getD w) init =
      (l.filterMap g).getLastD init := by
  induction l with
  | nil => intro init; rfl
  | cons t ts ih =>
    intro init
    rcases hgt : g t with - | b
    · rw [List.foldl_cons, hgt, List.filterMap_cons_none hgt]
      exact ih init
    · rw [List.foldl_cons, hgt, List.filterMap_cons_some hgt,
        List.getLastD_cons]
      exact ih b

theorem splitEqList_no_eq (l : List Char) (h : '=' ∉ l) :
    splitEqList l = (l, none) := by
  induction l with
  | nil => rfl
  | cons c cs ih =>
    rw [splitEqList, if_neg fun hx => h (List.mem_cons.2 (Or.inl hx.symm))]
    rw [ih fun hx => h (List.mem_cons_of_mem c hx)]

theorem splitEqList_append (l1 l2 : List Char) (h : '=' ∉ l1) :
    splitEqList (l1 ++ '=' :: l2) = (l1, some l2) := by
  induction l1 with
  | nil => rfl
  | cons c cs ih =>
    rw [List.cons_append, splitEqList,
      if_neg fun hx => h (List.mem_cons.2 (Or.inl hx.symm))]
    rw [ih fun hx => h (List.mem_cons_of_mem c hx)]

theorem splitEq_name_eq_value (n v : String) (h : '=' ∉ n.data) :
    splitEq (n ++ "=" ++ v) = (n, some v) := by
  have hd : (n ++ "=" ++ v).data = n.data ++ '=' :: v.data := by
    rw [String.data_append, String.data_append, List.append_assoc]
    rfl
  rw [splitEq, hd, splitEqList_append n.data v.data h]
  rfl

theorem splitEq_no_eq (n : String) (h : '=' ∉ n.data) :
    splitEq n = (n, none) := by
  rw [splitEq, splitEqList_no_eq n.data h]
  rfl

theorem findNamed_append (n : String) (pre l : List Argument)
    (h : ∀ b ∈ pre, b.name ≠ n) : findNamed n (pre ++ l) = findNamed n l := by
  induction pre with
  | nil => rfl
  | cons b pr ih =>
    rw [List.cons_append, findNamed, if_neg (h b (List.mem_cons_self b pr))]
    exact ih fun x hx => h x (List.mem_cons_of_mem b hx)

theorem findNamed_cons_pos (n : String) (a : Argument) (l : List Argument)
    (h : a.name = n) : findNamed n (a :: l) = some a := by
  rw [findNamed, if_pos h]

theorem substDefault_name (a : Argument) : (substDefault a).name = a.name := by
  rw [substDefault]; split <;> rfl

theorem substDefault_of_some (a : Argument) (w : String) :
    substDefault { a with value := some w } = { a with value := some w } := by
  rw [substDefault, if_neg]
  simp

theorem substDefault_of_none (a : Argument) :
    substDefault { a with value := none } = { a with value := a.def_val } := by
  rw [substDefault, if_pos rfl]

theorem forall₂_shape_names {pre pre2 : List Argument} {n : String}
    (hf : List.Forall₂ sameShape pre pre2) (h : ∀ b ∈ pre, b.name ≠ n) :
    ∀ b2 ∈ pre2, b2.name ≠ n := by
  intro b2 hb2
  obtain ⟨b, hb, hbs⟩ := forall₂_mem_right hf b2 hb2
  rw [hbs.1]
  exact h b hb

theorem map_subst_names {pre2 : List Argument} {n : String}
    (h : ∀ b ∈ pre2, b.name ≠ n) :
    ∀ b3 ∈ pre2.map substDefault, b3.name ≠ n := by
  intro b3 hb3
  obtain ⟨b, hb, rfl⟩ := List.mem_map.1 hb3
  rw [substDefault_name]
  exact h b hb

theorem parse_args_stderr (p : ArgumentParser) (argv : List String) :
    (parse_args p argv).stderrLine =
      (validate (scanList p.arguments (argv.drop 1))).2 := by
  show (validate (scanArgs p.arguments argv).1).2 = _
  rw [scanArgs, scanFold_fst]

theorem parse_args_args (p : ArgumentParser) (argv : List String) :
    (parse_args p argv).args =
      (validate (scanList p.arguments (argv.drop 1))).1 := by
  show (validate (scanArgs p.arguments argv).1).1 = _
  rw [scanArgs, scanFold_fst]

theorem scanArgs_fst (p : ArgumentParser) (argv : List String) :
    (scanArgs p.arguments argv).1 = scanList p.arguments (argv.drop 1) := by
  rw [scanArgs, scanFold_fst]

/-- A token mentions a flag spec: as `--name` or `--name=value`, or through its
short symbol inside the cluster of a short-form token. -/
def mentionsFlag (a : Argument) (tok : String) : Prop :=
  (startsDashDash tok = true ∧ (splitEq (strDrop tok 2)).1 = a.name) ∨
  (startsDashDash tok = false ∧ startsDash tok = true ∧
    a.sym ∈ (splitEq (strDrop tok 1)).1.data)

theorem tokenEffect_flag (a : Argument) (hty : a.type = ArgType.FLAG)
    (t : String) :
    tokenEffect a t = none ∨ tokenEffect a t = some (some "true") := by
  rw [tokenEffect]
  split_ifs <;> simp [longVal, hty] <;> tauto

theorem mentionsFlag_effect (a : Argument) (tok : String)
    (hty : a.type = ArgType.FLAG) (hm : mentionsFlag a tok) :
    tokenEffect a tok = some (some "true") := by
  rcases hm with ⟨h1, h2⟩ | ⟨h1, h2, h3⟩
  · rw [tokenEffect, if_pos h1, if_pos h2, longVal, if_pos hty]
  · have hna : a.type ≠ ArgType.ARG := by rw [hty]; intro hx; cases hx
    rw [tokenEffect, if_neg (by simp [h1]), if_pos h2, if_pos ⟨h3, hna⟩,
      longVal, if_pos hty]

theorem get_flag_after (p : ArgumentParser) (argv : List String) (n : String) :
    get_flag (afterParse p argv) n =
      (match findNamed n (parse_args p argv).args with
        | none => false
        | some a => if a.type = ArgType.FLAG then a.value.isSome else false) :=
  rfl

theorem get_kwarg_after (p : ArgumentParser) (argv : List String) (n : String) :
    get_kwarg (afterParse p argv) n =
      (match findNamed n (parse_args p argv).args with
        | none => none
        | some a =>
          if a.type = ArgType.KWARG then
            (match a.value with
              | some v => some v
              | none => a.def_val)
          else none) :=
  rfl

theorem get_arg_after (p : ArgumentParser) (argv : List String) (n : String) :
    get_arg (afterParse p argv) n =
      (match findNamed n (parse_args p argv).args with
        | none => none
        | some a =>
          if a.type = ArgType.ARG then
            (match a.value with
              | some v => some v
              | none => a.def_val)
          else none) :=
  rfl

/-! ### The claims -/

/-- C1: for a parser declaring two KeyValue specs with short symbols `a` and
`b`, parsing the single token `-ab=X` assigns the same trailing value `X` to
both specs, and `get_kwarg` on either name returns `X`: every character of a
short cluster receives the one trailing value, not just the last. -/
theorem cluster_value_shared_by_all_kwargs
    (prog usage desc epi na nb X : String) (ra rb : Bool)
    (da db ha hb : Option String) (hne : na ≠ nb) :
    get_kwarg (afterParse (add_kwarg (add_kwarg
        (initParser prog usage desc epi false) 'a' na ra da ha) 'b' nb rb db hb)
      ["prog", "-ab=" ++ X]) na = some X ∧
    get_kwarg (afterParse (add_kwarg (add_kwarg
        (initParser prog usage desc epi false) 'a' na ra da ha) 'b' nb rb db hb)
      ["prog", "-ab=" ++ X]) nb = some X := by
  have hscan : (scanArgs (add_kwarg (add_kwarg
      (initParser prog usage desc epi false) 'a' na ra da ha) 'b' nb rb db
        hb).arguments ["prog", "-ab=" ++ X]).1 =
      [{ name := na, sym := 'a', required := ra, help := ha,
         type := ArgType.KWARG, count := 0, def_val := da, value := some X },
       { name := nb, sym := 'b', required := rb, help := hb,
         type := ArgType.KWARG, count := 0, def_val := db,
         value := some X }] := rfl
  have hargs : (parse_args (add_kwarg (add_kwarg
      (initParser prog usage desc epi false) 'a' na ra da ha) 'b' nb rb db hb)
      ["prog", "-ab=" ++ X]).args =
      [{ name := na, sym := 'a', required := ra, help := ha,
         type := ArgType.KWARG, count := 0, def_val := da, value := some X },
       { name := nb, sym := 'b', required := rb, help := hb,
         type := ArgType.KWARG, count := 0, def_val := db,
         value := some X }] := by
    show (validate (scanArgs _ _).1).1 = _
    rw [hscan]
    simp [validate]
  constructor
  · rw [get_kwarg_after, hargs]
    simp [findNamed]
  · rw [get_kwarg_after, hargs]
    simp [findNamed, hne]

/-- C1 witness: two concrete KeyValue specs behind symbols `a` and `b`; the
token `-ab=X` makes both getters return `"X"`. -/
theorem cluster_value_shared_by_all_kwargs_witness :
    ("alpha" : String) ≠ "beta" ∧
    (get_kwarg (afterParse (add_kwarg (add_kwarg
        (initParser "p" "u" "d" "e" false) 'a' "alpha" false none none)
        'b' "beta" false none none) ["prog", "-ab=" ++ "X"]) "alpha" =
      some "X" ∧
    get_kwarg (afterParse (add_kwarg (add_kwarg
        (initParser "p" "u" "d" "e" false) 'a' "alpha" false none none)
        'b' "beta" false none none) ["prog", "-ab=" ++ "X"]) "beta" =
      some "X") :=
  ⟨by decide,
    cluster_value_shared_by_all_kwargs "p" "u" "d" "e" "alpha" "beta" "X"
      false false none none none none (by decide)⟩

/-- C2: if after the full token scan some spec is required and unresolved,
`parse_args` exits with failure after exactly one diagnostic line on standard
error, `Missing required argument: <name>`, naming the first such spec in
declaration order; specs from that spec on are left untouched, so no later
default substitution happens. -/
theorem missing_required_reports_first (p : ArgumentParser) (argv : List String)
    (h : ∃ x ∈ (scanArgs p.arguments argv).1,
      x.required = true ∧ x.value = none) :
    ∃ a, (scanArgs p.arguments argv).1.find? missingB = some a ∧
      (parse_args p argv).stderrLine =
        some ("Missing required argument: " ++ a.name ++ "\n") ∧
      (parse_args p argv).args =
        ((scanArgs p.arguments argv).1.takeWhile
            fun x => !missingB x).map substDefault ++
          (scanArgs p.arguments argv).1.dropWhile fun x => !missingB x := by
  obtain ⟨a, hfind⟩ := validate_error_of_missing _ h
  obtain ⟨h1, h2⟩ := validate_missing _ a hfind
  exact ⟨a, hfind, h1, h2⟩

/-- C2 witness: one non-required KeyValue spec with a default followed by two
required ones and no tokens: only the first required spec (`bb`) is named on
standard error, the prefix got its default, and the specs from `bb` on are
untouched. -/
theorem missing_required_reports_first_witness :
    ∃ a, (scanArgs (add_kwarg (add_kwarg (add_kwarg
        (initParser "p" "u" "d" "e" false) 'a' "aa" false (some "da") none)
        'b' "bb" true none none) 'c' "cc" true none none).arguments
        ["prog"]).1.find? missingB = some a ∧
      (parse_args (add_kwarg (add_kwarg (add_kwarg
        (initParser "p" "u" "d" "e" false) 'a' "aa" false (some "da") none)
        'b' "bb" true none none) 'c' "cc" true none none)
        ["prog"]).stderrLine =
        some ("Missing required argument: " ++ a.name ++ "\n") ∧
      (parse_args (add_kwarg (add_kwarg (add_kwarg
        (initParser "p" "u" "d" "e" false) 'a' "aa" false (some "da") none)
        'b' "bb" true none none) 'c' "cc" true none none) ["prog"]).args =
        ((scanArgs (add_kwarg (add_kwarg (add_kwarg
            (initParser "p" "u" "d" "e" false) 'a' "aa" false (some "da") none)
            'b' "bb" true none none) 'c' "cc" true none none).arguments
            ["prog"]).1.takeWhile fun x => !missingB x).map substDefault ++
          (scanArgs (add_kwarg (add_kwarg (add_kwarg
            (initParser "p" "u" "d" "e" false) 'a' "aa" false (some "da") none)
            'b' "bb" true none none) 'c' "cc" true none none).arguments
            ["prog"]).1.dropWhile fun x => !missingB x :=
  missing_required_reports_first _ ["prog"] (by decide)

/-- C3 counterexample: a KeyValue spec `out` with default `"d"`, parsed with
the bare token `--out` (no `=`).  The claim says the assigned `none` is
distinct from never matching, not replaced by the default, and not counted as
missing; in fact the default IS substituted (the resolved value ends up
`some "d"`), and with `required` set the same parse exits with the
missing-argument diagnostic. -/
theorem bare_long_kwarg_counterexample :
    (parse_args (add_kwarg (initParser "p" "u" "d" "e" false) 'o' "out" false
        (some "d") none) ["prog", "--out"]).args =
      [{ name := "out", sym := 'o', required := false, help := none,
         type := ArgType.KWARG, count := 0, def_val := some "d",
         value := some "d" }] ∧
    get_kwarg (afterParse (add_kwarg (initParser "p" "u" "d" "e" false) 'o'
        "out" false (some "d") none) ["prog", "--out"]) "out" = some "d" ∧
    (parse_args (add_kwarg (initParser "p" "u" "d" "e" false) 'o' "out" true
        (some "d") none) ["prog", "--out"]).stderrLine =
      some "Missing required argument: out\n" := by
  decide

/-- C3 (amended): parsing the bare long form `--name` of a KeyValue spec that
is the first name match and still unresolved assigns a `none` value, which is
indistinguishable from never having matched at all: the entire parse result
equals that of parsing no tokens — in particular the default IS substituted at
end of scan and a required spec DOES count as missing. -/
theorem bare_long_kwarg_assigns_none (p : ArgumentParser) (pre : List Argument)
    (a : Argument) (post : List Argument)
    (hsplit : p.arguments = pre ++ a :: post)
    (hpre : ∀ b ∈ pre, b.name ≠ a.name)
    (hty : a.type = ArgType.KWARG) (hval : a.value = none)
    (hne : '=' ∉ a.name.data) :
    parse_args p ["prog", "--" ++ a.name] = parse_args p ["prog"] := by
  have ha : ({ a with value := none } : Argument) = a := by
    rw [← hval]
  have h1 : assignNamed a.name none p.arguments = p.arguments := by
    rw [hsplit, assignNamed_eq,
      updateFirst_found (fun b => b.name = a.name)
        (fun b => { b with value := none }) pre a post hpre rfl, ha]
  have h2 : assignTyped a.name none p.arguments = p.arguments := by
    have hfa : (if a.type = ArgType.FLAG then
        ({ a with value := some "true" } : Argument)
        else { a with value := none }) = a := by
      rw [if_neg (by rw [hty]; intro hx; cases hx), ha]
    rw [hsplit, assignTyped_eq,
      updateFirst_found
        (fun b => b.name = a.name ∧
          (b.type = ArgType.FLAG ∨ b.type = ArgType.KWARG))
        (fun b =>
          if b.type = ArgType.FLAG then { b with value := some "true" }
          else { b with value := none })
        pre a post (fun b hb hx => hpre b hb hx.1) ⟨rfl, Or.inr hty⟩, hfa]
  have e1 : splitEq (strDrop ("--" ++ a.name) 2) = (a.name, none) :=
    splitEq_no_eq a.name hne
  have htok : scanToken p.arguments ("--" ++ a.name) = (p.arguments, "") := by
    show (assignTyped (splitEq (strDrop ("--" ++ a.name) 2)).1
        (splitEq (strDrop ("--" ++ a.name) 2)).2
        (assignNamed (splitEq (strDrop ("--" ++ a.name) 2)).1
          (splitEq (strDrop ("--" ++ a.name) 2)).2 p.arguments), "") =
      (p.arguments, "")
    simp only [e1]
    rw [h1, h2]
  have hscan : scanArgs p.arguments ["prog", "--" ++ a.name] =
      (p.arguments, "") := by
    show ((scanToken p.arguments ("--" ++ a.name)).1,
      "" ++ (scanToken p.arguments ("--" ++ a.name)).2) = (p.arguments, "")
    rw [htok]
    rfl
  show ({ args := (validate (scanArgs p.arguments
      ["prog", "--" ++ a.name]).1).1, .. } : ParseResult) = _
  rw [hscan]
  rfl

/-- C3 (amended) witness: a required KeyValue spec `out` with default;
parsing `["prog", "--out"]` gives exactly the same result as parsing
`["prog"]`. -/
theorem bare_long_kwarg_assigns_none_witness :
    parse_args (add_kwarg (initParser "p" "u" "d" "e" false) 'o' "out" true
        (some "d") none)
      ["prog", "--" ++ "out"] =
    parse_args (add_kwarg (initParser "p" "u" "d" "e" false) 'o' "out" true
        (some "d") none) ["prog"] :=
  bare_long_kwarg_assigns_none _ []
    { name := "out", sym := 'o', required := true, help := none,
      type := ArgType.KWARG, count := 0, def_val := some "d", value := none }
    [] rfl (by intro b hb; cases hb) rfl rfl (by decide)

/-- C4: every declared Flag spec that is mentioned in the token list — as
`--name`, as `--name=value`, or through its short symbol in a short-form
token — ends the parse with the literal resolved value `"true"`, and
`get_flag` on its name returns `true`, regardless of any trailing `=value`
text.  The spec must not be shadowed by an earlier spec, and the parse must
not exit over some other missing required spec. -/
theorem flag_mentioned_resolves_true (p : ArgumentParser) (argv : List String)
    (pre : List Argument) (f : Argument) (post : List Argument)
    (hsplit : p.arguments = pre ++ f :: post)
    (hty : f.type = ArgType.FLAG)
    (hsh : Unshadowed pre f)
    (hm : ∃ tok ∈ argv.drop 1, mentionsFlag f tok)
    (hok : (parse_args p argv).stderrLine = none) :
    get_flag (afterParse p argv) f.name = true ∧
    findNamed f.name (parse_args p argv).args =
      some { f with value := some "true" } := by
  obtain ⟨pre2, post2, hscan, hp2, hq2⟩ :=
    scanList_decomp (argv.drop 1) pre f post hsh
  have hsv : scannedValue f (argv.drop 1) = some "true" := by
    rw [scannedValue,
      foldl_getD_const (tokenEffect f) (some "true") (tokenEffect_flag f hty)]
    rw [if_pos]
    obtain ⟨tok, htm, hmf⟩ := hm
    refine List.any_eq_true.2 ⟨tok, htm, ?_⟩
    rw [mentionsFlag_effect f tok hty hmf]
    rfl
  rw [hsv] at hscan
  have hscan2 : scanList p.arguments (argv.drop 1) =
      pre2 ++ { f with value := some "true" } :: post2 := by
    rw [hsplit]
    exact hscan
  have herr : (validate (scanList p.arguments (argv.drop 1))).2 = none := by
    rw [← parse_args_stderr]
    exact hok
  have hargs : (parse_args p argv).args =
      pre2.map substDefault ++
        { f with value := some "true" } :: post2.map substDefault := by
    rw [parse_args_args, validate_no_error _ herr, hscan2, List.map_append,
      List.map_cons, substDefault_of_some]
  have hnames2 : ∀ b ∈ pre2, b.name ≠ f.name :=
    forall₂_shape_names hp2 fun b hb => (hsh b hb).1
  have hfind : findNamed f.name (parse_args p argv).args =
      some { f with value := some "true" } := by
    rw [hargs, findNamed_append _ _ _ (map_subst_names hnames2),
      findNamed_cons_pos f.name ({ f with value := some "true" })
        (post2.map substDefault) rfl]
  refine ⟨?_, hfind⟩
  rw [get_flag_after, hfind]
  simp [hty]

/-- C4 witness: a flag `silent` with symbol `s` mentioned as `-s`; `get_flag`
returns `true` and the stored value is the literal `"true"`. -/
theorem flag_mentioned_resolves_true_witness :
    get_flag (afterParse (add_flag (initParser "p" "u" "d" "e" false) 's'
        "silent" none) ["prog", "-s"]) "silent" = true ∧
    findNamed "silent" (parse_args (add_flag (initParser "p" "u" "d" "e" false)
        's' "silent" none) ["prog", "-s"]).args =
      some { name := "silent", sym := 's', required := false, help := none,
             type := ArgType.FLAG, count := 0, def_val := none,
             value := some "true" } :=
  flag_mentioned_resolves_true _ ["prog", "-s"] []
    { name := "silent", sym := 's', required := false, help := none,
      type := ArgType.FLAG, count := 0, def_val := none, value := none }
    [] rfl rfl (by intro b hb; cases hb)
    ⟨"-s", by decide, Or.inr ⟨rfl, rfl, by decide⟩⟩ (by decide)

/-- C5: a KeyValue spec, not required, with a declared default and matched by
no token, receives the default as its resolved value only after the whole
scan (the scanned list still holds it unresolved), and `get_kwarg` then
returns the default verbatim. -/
theorem kwarg_default_substituted (p : ArgumentParser) (argv : List String)
    (pre : List Argument) (k : Argument) (post : List Argument) (d : String)
    (hsplit : p.arguments = pre ++ k :: post)
    (hty : k.type = ArgType.KWARG) (hreq : k.required = false)
    (hdef : k.def_val = some d) (hval : k.value = none)
    (hsh : Unshadowed pre k)
    (hnone : ∀ tok ∈ argv.drop 1, tokenEffect k tok = none)
    (hok : (parse_args p argv).stderrLine = none) :
    get_kwarg (afterParse p argv) k.name = some d ∧
    (∃ pre2 post2, (scanArgs p.arguments argv).1 = pre2 ++ k :: post2) ∧
    (∃ pre3 post3, (parse_args p argv).args =
      pre3 ++ { k with value := some d } :: post3) := by
  obtain ⟨pre2, post2, hscan, hp2, hq2⟩ :=
    scanList_decomp (argv.drop 1) pre k post hsh
  have hsv : scannedValue k (argv.drop 1) = none := by
    rw [scannedValue, foldl_getD_none _ _ hnone, hval]
  rw [hsv] at hscan
  have hk : ({ k with value := none } : Argument) = k := by
    rw [← hval]
  have hscan2 : scanList p.arguments (argv.drop 1) = pre2 ++ k :: post2 := by
    rw [hsplit, hscan, hk]
  have herr : (validate (scanList p.arguments (argv.drop 1))).2 = none := by
    rw [← parse_args_stderr]
    exact hok
  have hsubk : substDefault k = { k with value := some d } := by
    rw [show substDefault k = substDefault { k with value := none } from by
        rw [hk],
      substDefault_of_none, hdef]
  have hargs : (parse_args p argv).args =
      pre2.map substDefault ++
        { k with value := some d } :: post2.map substDefault := by
    rw [parse_args_args, validate_no_error _ herr, hscan2, List.map_append,
      List.map_cons, hsubk]
  have hnames2 : ∀ b ∈ pre2, b.name ≠ k.name :=
    forall₂_shape_names hp2 fun b hb => (hsh b hb).1
  have hfind : findNamed k.name (parse_args p argv).args =
      some { k with value := some d } := by
    rw [hargs, findNamed_append _ _ _ (map_subst_names hnames2),
      findNamed_cons_pos k.name ({ k with value := some d })
        (post2.map substDefault) rfl]
  refine ⟨?_, ⟨pre2, post2, by rw [scanArgs_fst]; exact hscan2⟩,
    ⟨pre2.map substDefault, post2.map substDefault, hargs⟩⟩
  rw [get_kwarg_after, hfind]
  simp [hty]

/-- Concrete KeyValue spec used to witness the default-substitution claim. -/
def exOutputSpec : Argument :=
  { name := "output", sym := 'o', required := false, help := none,
    type := ArgType.KWARG, count := 0, def_val := some "out.txt",
    value := none }

/-- C5 witness: KeyValue spec `output` with default `out.txt`, tokens that do
not mention it; the getter returns the default, the scanned list is still
unresolved, and the parsed list holds the default. -/
theorem kwarg_default_substituted_witness :
    get_kwarg (afterParse (add_kwarg (initParser "p" "u" "d" "e" false) 'o'
        "output" false (some "out.txt") none) ["prog", "--other"]) "output" =
      some "out.txt" ∧
    (∃ pre2 post2, (scanArgs (add_kwarg (initParser "p" "u" "d" "e" false) 'o'
        "output" false (some "out.txt") none).arguments
        ["prog", "--other"]).1 = pre2 ++ exOutputSpec :: post2) ∧
    (∃ pre3 post3, (parse_args (add_kwarg (initParser "p" "u" "d" "e" false)
        'o' "output" false (some "out.txt") none) ["prog", "--other"]).args =
      pre3 ++ { exOutputSpec with value := some "out.txt" } :: post3) :=
  kwarg_default_substituted _ ["prog", "--other"] [] exOutputSpec [] "out.txt"
    rfl rfl rfl rfl rfl (by intro b hb; cases hb) (by decide) (by decide)

/-- C6: within one parse invocation, a spec that no earlier spec shadows ends
the token scan with the value produced by the last token that matches it, in
token-scan order (each later match overwrites the earlier value); when no
token matches, its value is unchanged. -/
theorem last_matching_token_wins (p : ArgumentParser) (argv : List String)
    (pre : List Argument) (a : Argument) (post : List Argument)
    (hsplit : p.arguments = pre ++ a :: post) (hsh : Unshadowed pre a) :
    ∃ pre2 post2,
      (scanArgs p.arguments argv).1 =
        pre2 ++ { a with
          value := ((argv.drop 1).filterMap
            (tokenEffect a)).getLastD a.value } :: post2 ∧
      List.Forall₂ sameShape pre pre2 ∧ List.Forall₂ sameShape post post2 := by
  obtain ⟨pre2, post2, hscan, hp, hq⟩ :=
    scanList_decomp (argv.drop 1) pre a post hsh
  refine ⟨pre2, post2, ?_, hp, hq⟩
  rw [scanArgs_fst, hsplit, hscan, scannedValue, foldl_getD_eq_getLastD]

/-- Concrete KeyValue spec used to witness the last-write-wins claim. -/
def exKeySpec : Argument :=
  { name := "key", sym := 'k', required := false, help := none,
    type := ArgType.KWARG, count := 0, def_val := none, value := none }

/-- C6 witness: `--key=1` then `--key=2` on one KeyValue spec: the scanned
value is the effect of the last matching token, `some "2"`. -/
theorem last_matching_token_wins_witness :
    ∃ pre2 post2,
      (scanArgs (add_kwarg (initParser "p" "u" "d" "e" false) 'k' "key" false
          none none).arguments ["prog", "--key=1", "--key=2"]).1 =
        pre2 ++ { exKeySpec with
          value := ((["prog", "--key=1", "--key=2"].drop 1).filterMap
            (tokenEffect exKeySpec)).getLastD exKeySpec.value } :: post2 ∧
      List.Forall₂ sameShape [] pre2 ∧ List.Forall₂ sameShape [] post2 :=
  last_matching_token_wins _ ["prog", "--key=1", "--key=2"] [] exKeySpec []
    rfl (by intro b hb; cases hb)

/-- C7 counterexample: the bare token `x=y` (no leading `-`).  The claim says
the raw token text is written to standard output; in fact the scan truncates
the token at its first `=` before printing, so the output is `"x"`, not
`"x=y"`. -/
theorem bare_token_echo_counterexample :
    (parse_args (initParser "p" "u" "d" "e" false) ["prog", "x=y"]).stdoutText
      = "x" ∧
    (parse_args (initParser "p" "u" "d" "e" false) ["prog", "x=y"]).stdoutText
      ≠ "x=y" := by
  decide

/-- C7 (amended): during the scan, every token with no leading `-` — and only
those — writes to standard output the part of the token before its first `=`
(the whole token when no `=` is present), whether or not it matches any
declared spec: the standard output of a parse is exactly the concatenation of
those fragments, independent of the parser. -/
theorem stdout_echoes_pre_eq_part (p : ArgumentParser) (argv : List String) :
    (parse_args p argv).stdoutText = strConcat ((argv.drop 1).map echoOf) := by
  show (scanArgs p.arguments argv).2 = _
  rw [scanArgs, scanFold_snd]
  rfl

/-- C8: each getter checks the stored kind of the first spec matching the
name against the operation's expected kind; a name that resolves to a spec of
a different kind yields the not-found result — `false` for `get_flag`, `none`
for the value getters — not the stored value. -/
theorem getter_kind_mismatch (p : ArgumentParser) (n : String) (a : Argument)
    (hfind : findNamed n p.arguments = some a) :
    (a.type ≠ ArgType.FLAG → get_flag p n = false) ∧
    (a.type ≠ ArgType.KWARG → get_kwarg p n = none) ∧
    (a.type ≠ ArgType.ARG → get_arg p n = none) := by
  refine ⟨fun h1 => ?_, fun h2 => ?_, fun h3 => ?_⟩
  · simp only [get_flag, hfind]
    rw [if_neg h1]
  · simp only [get_kwarg, hfind]
    rw [if_neg h2]
  · simp only [get_arg, hfind]
    rw [if_neg h3]

/-- C8 witness: name `dup` declared first as a KeyValue and then as a Flag;
`get_flag "dup"` finds the KeyValue spec first and returns `false`. -/
theorem getter_kind_mismatch_witness :
    get_flag (add_flag (add_kwarg (initParser "p" "u" "d" "e" false) 'x' "dup"
        false none none) 'x' "dup" none) "dup" = false :=
  (getter_kind_mismatch _ "dup"
    { name := "dup", sym := 'x', required := false, help := none,
      type := ArgType.KWARG, count := 0, def_val := none, value := none }
    (by decide)).1 (by decide)

/-- C9 (implicit): a Positional (`ARG`) spec that is the first spec matching
its name is resolved through the long form `--name=value`: the first, untyped
matching loop assigns the split value regardless of kind, so `get_arg`
afterwards returns the value even though the name never appeared as a bare
token. -/
theorem positional_assigned_via_long_form (p : ArgumentParser)
    (pre : List Argument) (a : Argument) (post : List Argument) (v : String)
    (hsplit : p.arguments = pre ++ a :: post)
    (hty : a.type = ArgType.ARG)
    (hpre : ∀ b ∈ pre, b.name ≠ a.name)
    (hne : '=' ∉ a.name.data)
    (hok : (parse_args p ["prog", "--" ++ a.name ++ "=" ++ v]).stderrLine
      = none) :
    get_arg (afterParse p ["prog", "--" ++ a.name ++ "=" ++ v]) a.name
      = some v := by
  obtain ⟨pre2, post2, hpair, hp, hq⟩ :=
    assignPair_decomp a.name (some v) pre a post hpre
  have hlv : (if a.name = a.name then longVal a (some v) else a.value)
      = some v := by
    rw [if_pos rfl, longVal, if_neg (by rw [hty]; intro hx; cases hx)]
  rw [hlv] at hpair
  have e1 : splitEq (strDrop ("--" ++ a.name ++ "=" ++ v) 2)
      = (a.name, some v) := splitEq_name_eq_value a.name v hne
  have hscan : scanList p.arguments
      (["prog", "--" ++ a.name ++ "=" ++ v].drop 1) =
      pre2 ++ { a with value := some v } :: post2 := by
    show assignTyped (splitEq (strDrop ("--" ++ a.name ++ "=" ++ v) 2)).1
        (splitEq (strDrop ("--" ++ a.name ++ "=" ++ v) 2)).2
        (assignNamed (splitEq (strDrop ("--" ++ a.name ++ "=" ++ v) 2)).1
          (splitEq (strDrop ("--" ++ a.name ++ "=" ++ v) 2)).2 p.arguments)
        = _
    rw [e1, hsplit]
    exact hpair
  have herr : (validate (scanList p.arguments
      (["prog", "--" ++ a.name ++ "=" ++ v].drop 1))).2 = none := by
    rw [← parse_args_stderr]
    exact hok
  have hargs : (parse_args p ["prog", "--" ++ a.name ++ "=" ++ v]).args =
      pre2.map substDefault ++
        { a with value := some v } :: post2.map substDefault := by
    rw [parse_args_args, validate_no_error _ herr, hscan, List.map_append,
      List.map_cons, substDefault_of_some]
  have hnames2 : ∀ b ∈ pre2, b.name ≠ a.name := forall₂_shape_names hp hpre
  have hfind : findNamed a.name
      (parse_args p ["prog", "--" ++ a.name ++ "=" ++ v]).args =
      some { a with value := some v } := by
    rw [hargs, findNamed_append _ _ _ (map_subst_names hnames2),
      findNamed_cons_pos a.name ({ a with value := some v })
        (post2.map substDefault) rfl]
  rw [get_arg_after, hfind]
  simp [hty]

/-- Concrete positional spec used to witness the long-form assignment. -/
def exFileSpec : Argument :=
  { name := "file", sym := 'f', required := false, help := none,
    type := ArgType.ARG, count := 1, def_val := none, value := none }

/-- C9 witness: positional `file` resolved by `--file=data.txt`. -/
theorem positional_assigned_via_long_form_witness :
    get_arg (afterParse (add_arg (initParser "p" "u" "d" "e" false) 'f' "file"
        false 1 none none) ["prog", "--" ++ "file" ++ "=" ++ "data.txt"])
      "file" = some "data.txt" :=
  positional_assigned_via_long_form _ [] exFileSpec [] "data.txt" rfl rfl
    (by intro b hb; cases hb) (by decide) (by decide)

/-- C10 (implicit): a spec declared with an absent short symbol (character
code 0) stores the literal `'0'` as its symbol, so declaring with the null
symbol is indistinguishable from declaring `'0'` explicitly, and a short-form
token containing the character `'0'` matches such a Flag or KeyValue spec and
sets its value exactly as a genuinely declared `'0'` symbol would. -/
theorem absent_symbol_stored_as_zero (p : ArgumentParser) (n : String)
    (r : Bool) (nargs : Nat) (dv hp : Option String) :
    add_flag p (Char.ofNat 0) n hp = add_flag p '0' n hp ∧
    add_kwarg p (Char.ofNat 0) n r dv hp = add_kwarg p '0' n r dv hp ∧
    add_arg p (Char.ofNat 0) n r nargs dv hp = add_arg p '0' n r nargs dv hp ∧
    get_flag (afterParse (add_flag (initParser "p" "u" "d" "e" false)
        (Char.ofNat 0) "quiet" none) ["prog", "-0"]) "quiet" = true ∧
    get_kwarg (afterParse (add_kwarg (initParser "p" "u" "d" "e" false)
        (Char.ofNat 0) "level" false none none) ["prog", "-0=v"]) "level" =
      some "v" := by
  have hs : storedSym (Char.ofNat 0) = storedSym '0' := by decide
  exact ⟨by rw [add_flag, add_flag, hs], by rw [add_kwarg, add_kwarg, hs],
    by rw [add_arg, add_arg, hs], by decide, by decide⟩

end MyArgs
